import Mathlib

/-!
Verification development for the `sistemas-de-actas` repository.

The file embeds the core of `src/sistemas_actas.py` in Lean 4:

* `segmentar_audio_fino` — the audio segmenter (lines 35-49): real-valued
  durations are modelled as rationals, and the `np.arange(0, D, L)` loop is
  rendered by its defining index set `k < ⌈D / L⌉`; the opaque sample payload
  of each segment is omitted, the `inicio`/`fin`/`duracion` fields are kept.
* `detectar_comando` — the phrase classifier (lines 60-70).
* `buscar_keywords` — the keyword tagger (lines 72-76).
* `procesar_segmento` / `procesar_lista` / `procesar_audio_con_comandos` —
  the session state machine (lines 78-140).  Transcription (Whisper) is an
  external collaborator: the machine is given the ordered list of
  per-window transcripts directly, one `Segmento` per audio window, exactly
  as the Python loop sees them after `transcribir_segmento`.

Python strings are modelled as Lean `String`s; `str.lower()` / substring
`in` / `str.capitalize()` are given explicit character-list definitions.
-/

namespace Actas

/-- Character-list prefix test, modelling the primitive used by Python
substring containment. -/
def empiezaCon : List Char → List Char → Bool
  | [], _ => true
  | _ :: _, [] => false
  | a :: resto₁, b :: resto₂ => a == b && empiezaCon resto₁ resto₂

/-- Substring containment on character lists: some suffix of the text starts
with `sub`.  This models Python `sub in texto`. -/
def contieneSub (sub : List Char) : List Char → Bool
  | [] => empiezaCon sub []
  | b :: resto => empiezaCon sub (b :: resto) || contieneSub sub resto

/-- Python `sub in texto` on strings. -/
def contiene (sub texto : String) : Bool :=
  contieneSub sub.data texto.data

/-- Python `texto.lower()`: character-wise lower-casing. -/
def lower (texto : String) : String :=
  String.mk (texto.data.map Char.toLower)

/-- Python `texto.capitalize()`: first character upper-cased, the rest
lower-cased; the empty string is unchanged. -/
def capitalize (texto : String) : String :=
  match texto.data with
  | [] => ""
  | c :: resto => String.mk (c.toUpper :: resto.map Char.toLower)

/-- Keyword configuration `PALABRAS_CLAVE` (line 16 of the source). -/
def PALABRAS_CLAVE : List String :=
  ["obra", "riesgo", "medida", "acta", "reunión", "proyecto", "civil"]

/-- Session-start phrases `COMANDOS_INICIO` (line 17 of the source). -/
def COMANDOS_INICIO : List String :=
  ["se inicia la sesión", "iniciamos", "empezamos"]

/-- Minutes-activation phrases `COMANDO_ACTIVAR` (line 18 of the source). -/
def COMANDO_ACTIVAR : List String :=
  ["en acta", "dentro de acta"]

/-- Minutes-deactivation phrases `COMANDO_DESACTIVAR` (line 19 of the source). -/
def COMANDO_DESACTIVAR : List String :=
  ["fuera de acta", "off acta"]

/-- The command kinds returned by `detectar_comando`; `Option Comando`
renders the Python return values `"inicio"`, `"activar"`, `"desactivar"`,
`None`. -/
inductive Comando where
  | inicio
  | activar
  | desactivar
deriving DecidableEq, Repr

/-- `detectar_comando(texto)` (source lines 60-70): lower-case the text,
then test the three phrase lists in priority order; first hit wins. -/
def detectar_comando (texto : String) : Option Comando :=
  if COMANDOS_INICIO.any (fun cmd => contiene cmd (lower texto)) then
    some Comando.inicio
  else if COMANDO_ACTIVAR.any (fun cmd => contiene cmd (lower texto)) then
    some Comando.activar
  else if COMANDO_DESACTIVAR.any (fun cmd => contiene cmd (lower texto)) then
    some Comando.desactivar
  else
    none

/-- `buscar_keywords(texto)` (source lines 72-76): the keywords of
`PALABRAS_CLAVE`, in list order, that occur in the lower-cased text. -/
def buscar_keywords (texto : String) : List String :=
  PALABRAS_CLAVE.filter (fun kw => contiene kw (lower texto))

/-- One window of the segmenter output together with its transcript, as the
processing loop of `procesar_audio_con_comandos` sees it: the dict keys
`inicio`/`fin` plus the result of the external transcription step. -/
structure Segmento where
  inicio : ℚ
  fin : ℚ
  transcripcion : String
deriving DecidableEq, Repr

/-- Entry kind of an accepted segment: `'contenido'` or `'comando'` in the
source dicts. -/
inductive Tipo where
  | contenido
  | comando
deriving DecidableEq, Repr

/-- An element of `acta_segmentos` (the dicts appended at source lines
113-119 and 125-131). -/
structure ActaSeg where
  inicio : ℚ
  fin : ℚ
  transcripcion : String
  matches' : List String
  tipo : Tipo
deriving DecidableEq, Repr

/-- One iteration of the loop body of `procesar_audio_con_comandos`
(source lines 88-134) on the pair of state flags
(`estado_activo`, `en_acta`): returns the updated flags and the entry
appended to `acta_segmentos`, if any. -/
def procesar_segmento (estado_activo en_acta : Bool) (seg : Segmento) :
    Bool × Bool × Option ActaSeg :=
  if seg.transcripcion = "" then
    (estado_activo, en_acta, none)
  else if detectar_comando seg.transcripcion = some Comando.inicio then
    (true, en_acta, none)
  else if estado_activo = false then
    (estado_activo, en_acta, none)
  else if detectar_comando seg.transcripcion = some Comando.activar then
    (estado_activo, true, none)
  else if detectar_comando seg.transcripcion = some Comando.desactivar then
    (estado_activo, false,
      some ⟨seg.inicio, seg.fin, seg.transcripcion,
            buscar_keywords seg.transcripcion, Tipo.comando⟩)
  else if en_acta = true ∧ seg.transcripcion ≠ "" then
    (estado_activo, en_acta,
      some ⟨seg.inicio, seg.fin, capitalize seg.transcripcion,
            buscar_keywords seg.transcripcion, Tipo.contenido⟩)
  else
    (estado_activo, en_acta, none)

/-- The whole loop of `procesar_audio_con_comandos` from given state flags:
final flags together with the accumulated `acta_segmentos`. -/
def procesar_lista : Bool → Bool → List Segmento → Bool × Bool × List ActaSeg
  | estado_activo, en_acta, [] => (estado_activo, en_acta, [])
  | estado_activo, en_acta, seg :: resto =>
    let paso := procesar_segmento estado_activo en_acta seg
    let cola := procesar_lista paso.1 paso.2.1 resto
    (cola.1, cola.2.1, paso.2.2.toList ++ cola.2.2)

/-- `procesar_audio_con_comandos` (source lines 78-140) on the ordered
(window, transcript) sequence: both flags start `False` (lines 84-85), and
the function returns `acta_segmentos`. -/
def procesar_audio_con_comandos (segmentos : List Segmento) : List ActaSeg :=
  (procesar_lista false false segmentos).2.2

/-- `SEGMENTO_DURACION` (line 15 of the source). -/
def SEGMENTO_DURACION : ℚ := 3

/-- An `AudioWindow` produced by the segmenter: the dict keys
`inicio`/`fin`/`duracion` of `segmentar_audio_fino`; the sample payload is
opaque and omitted. -/
structure Ventana where
  inicio : ℚ
  fin : ℚ
  duracion : ℚ
deriving DecidableEq, Repr

/-- `segmentar_audio_fino` (source lines 35-49) for window length `L` and
total duration `D` (in the source `L` is the constant `SEGMENTO_DURACION`
and `D = len(y)/sr`): the loop `for inicio in np.arange(0, D, L)` visits
`inicio = k * L` for `k < ⌈D / L⌉`, and each window gets
`fin = min(inicio + L, D)` and `duracion = fin - inicio`. -/
def segmentar_audio_fino (L D : ℚ) : List Ventana :=
  (List.range (Int.toNat ⌈D / L⌉)).map (fun (k : ℕ) =>
    ⟨(k : ℚ) * L, min ((k : ℚ) * L + L) D, min ((k : ℚ) * L + L) D - (k : ℚ) * L⟩)

/-- Big-step run relation of the processing loop: `Ejecuta s e segs out`
holds when running the loop body of `procesar_audio_con_comandos` from the
flags (`estado_activo` = `s`, `en_acta` = `e`) over the windows `segs`
appends exactly the entries `out`.  Each constructor is one branch of the
loop body (source lines 88-134); the relation is used to express that the
stage is deterministic. -/
inductive Ejecuta : Bool → Bool → List Segmento → List ActaSeg → Prop where
  | agotado (s e : Bool) : Ejecuta s e [] []
  | vacio {s e : Bool} {seg : Segmento} {resto : List Segmento} {out : List ActaSeg} :
      seg.transcripcion = "" → Ejecuta s e resto out → Ejecuta s e (seg :: resto) out
  | inicio {s e : Bool} {seg : Segmento} {resto : List Segmento} {out : List ActaSeg} :
      seg.transcripcion ≠ "" →
      detectar_comando seg.transcripcion = some Comando.inicio →
      Ejecuta true e resto out → Ejecuta s e (seg :: resto) out
  | espera {e : Bool} {seg : Segmento} {resto : List Segmento} {out : List ActaSeg} :
      seg.transcripcion ≠ "" →
      detectar_comando seg.transcripcion ≠ some Comando.inicio →
      Ejecuta false e resto out → Ejecuta false e (seg :: resto) out
  | activar {e : Bool} {seg : Segmento} {resto : List Segmento} {out : List ActaSeg} :
      seg.transcripcion ≠ "" →
      detectar_comando seg.transcripcion = some Comando.activar →
      Ejecuta true true resto out → Ejecuta true e (seg :: resto) out
  | desactivar {e : Bool} {seg : Segmento} {resto : List Segmento} {out : List ActaSeg} :
      seg.transcripcion ≠ "" →
      detectar_comando seg.transcripcion = some Comando.desactivar →
      Ejecuta true false resto out →
      Ejecuta true e (seg :: resto)
        (⟨seg.inicio, seg.fin, seg.transcripcion,
          buscar_keywords seg.transcripcion, Tipo.comando⟩ :: out)
  | contenido {seg : Segmento} {resto : List Segmento} {out : List ActaSeg} :
      seg.transcripcion ≠ "" →
      detectar_comando seg.transcripcion = none →
      Ejecuta true true resto out →
      Ejecuta true true (seg :: resto)
        (⟨seg.inicio, seg.fin, capitalize seg.transcripcion,
          buscar_keywords seg.transcripcion, Tipo.contenido⟩ :: out)
  | fueraDeActa {seg : Segmento} {resto : List Segmento} {out : List ActaSeg} :
      seg.transcripcion ≠ "" →
      detectar_comando seg.transcripcion = none →
      Ejecuta true false resto out → Ejecuta true false (seg :: resto) out

/-! Branch equations for one loop iteration. -/

/-- An empty transcript is skipped: neither flag changes, nothing is emitted. -/
theorem paso_vacio (s e : Bool) (seg : Segmento) (h : seg.transcripcion = "") :
    procesar_segmento s e seg = (s, e, none) := by
  simp [procesar_segmento, h]

/-- The empty transcript never classifies as a command. -/
theorem detectar_comando_vacio : detectar_comando "" = none := by decide

/-- A `SessionStart` window sets `estado_activo` and emits nothing,
whatever the prior flags. -/
theorem paso_inicio (s e : Bool) (seg : Segmento)
    (h : detectar_comando seg.transcripcion = some Comando.inicio) :
    procesar_segmento s e seg = (true, e, none) := by
  have ht : seg.transcripcion ≠ "" := by
    intro h0
    rw [h0, detectar_comando_vacio] at h
    exact Option.noConfusion h
  simp [procesar_segmento, ht, h]

/-- While the session is inactive, any non-`SessionStart` window is
discarded with no state change. -/
theorem paso_espera (e : Bool) (seg : Segmento) (ht : seg.transcripcion ≠ "")
    (h : detectar_comando seg.transcripcion ≠ some Comando.inicio) :
    procesar_segmento false e seg = (false, e, none) := by
  simp [procesar_segmento, ht, h]

/-- An `ActivateMinutes` window in an active session sets `en_acta` and
emits nothing. -/
theorem paso_activar (e : Bool) (seg : Segmento)
    (h : detectar_comando seg.transcripcion = some Comando.activar) :
    procesar_segmento true e seg = (true, true, none) := by
  have ht : seg.transcripcion ≠ "" := by
    intro h0
    rw [h0, detectar_comando_vacio] at h
    exact Option.noConfusion h
  simp [procesar_segmento, ht, h]

/-- A `DeactivateMinutes` window in an active session clears `en_acta` and
emits the command-marker entry. -/
theorem paso_desactivar (e : Bool) (seg : Segmento)
    (h : detectar_comando seg.transcripcion = some Comando.desactivar) :
    procesar_segmento true e seg =
      (true, false, some ⟨seg.inicio, seg.fin, seg.transcripcion,
        buscar_keywords seg.transcripcion, Tipo.comando⟩) := by
  have ht : seg.transcripcion ≠ "" := by
    intro h0
    rw [h0, detectar_comando_vacio] at h
    exact Option.noConfusion h
  simp [procesar_segmento, ht, h]

/-- A plain window with both flags set is emitted as content. -/
theorem paso_contenido (seg : Segmento) (ht : seg.transcripcion ≠ "")
    (h : detectar_comando seg.transcripcion = none) :
    procesar_segmento true true seg =
      (true, true, some ⟨seg.inicio, seg.fin, capitalize seg.transcripcion,
        buscar_keywords seg.transcripcion, Tipo.contenido⟩) := by
  simp [procesar_segmento, ht, h]

/-- A plain window with the session active but the minutes off is discarded. -/
theorem paso_fuera (seg : Segmento) (ht : seg.transcripcion ≠ "")
    (h : detectar_comando seg.transcripcion = none) :
    procesar_segmento true false seg = (true, false, none) := by
  simp [procesar_segmento, ht, h]

/-! Properties of a single emission. -/

/-- Any emitted entry carries the window's own timestamps and its keyword
tags, and its window is classified neither `SessionStart` nor
`ActivateMinutes`. -/
theorem paso_emite (s e : Bool) (seg : Segmento) (a : ActaSeg)
    (h : (procesar_segmento s e seg).2.2 = some a) :
    a.inicio = seg.inicio ∧ a.fin = seg.fin ∧
    a.matches' = buscar_keywords seg.transcripcion ∧
    detectar_comando seg.transcripcion ≠ some Comando.inicio ∧
    detectar_comando seg.transcripcion ≠ some Comando.activar ∧
    (a.tipo = Tipo.contenido → s = true ∧ e = true) := by
  unfold procesar_segmento at h
  split_ifs at h with h1 h2 h3 h4 h5 h6 <;> simp_all <;> (subst h; simp_all)

/-! Run-level helper lemmas. -/

/-- Every entry of the accumulated output was emitted by the loop body for
one of the input windows, from some pair of flags. -/
theorem emision_origen (segs : List Segmento) : ∀ (s e : Bool) (a : ActaSeg),
    a ∈ (procesar_lista s e segs).2.2 →
    ∃ seg ∈ segs, ∃ s' e', (procesar_segmento s' e' seg).2.2 = some a := by
  induction segs with
  | nil =>
    intro s e a h
    simp [procesar_lista] at h
  | cons seg resto ih =>
    intro s e a h
    simp only [procesar_lista] at h
    rw [List.mem_append] at h
    rcases h with h | h
    · refine ⟨seg, List.mem_cons_self seg resto, s, e, ?_⟩
      cases hopt : (procesar_segmento s e seg).2.2 with
      | none => rw [hopt] at h; simp [Option.toList] at h
      | some b =>
        rw [hopt] at h
        simp [Option.toList] at h
        rw [h]
    · obtain ⟨seg', hmem, s', e', hstep⟩ := ih _ _ _ h
      exact ⟨seg', List.mem_cons_of_mem seg hmem, s', e', hstep⟩

/-- The start times of the accumulated output form a sublist of the start
times of the input windows: each entry consumes a distinct window, in
order, and no window is used twice. -/
theorem salida_sublista (segs : List Segmento) : ∀ s e : Bool,
    ((procesar_lista s e segs).2.2.map ActaSeg.inicio).Sublist
      (segs.map Segmento.inicio) := by
  induction segs with
  | nil =>
    intro s e
    simp [procesar_lista]
  | cons seg resto ih =>
    intro s e
    simp only [procesar_lista, List.map_cons]
    cases hopt : (procesar_segmento s e seg).2.2 with
    | none =>
      simp only [hopt, Option.toList, List.nil_append]
      exact (ih _ _).cons _
    | some a =>
      have hini := (paso_emite s e seg a hopt).1
      simp only [hopt, Option.toList, List.singleton_append, List.map_cons, hini]
      exact (ih _ _).cons₂ _

/-- One iteration never clears `estado_activo`. -/
theorem paso_conserva_activo (e : Bool) (seg : Segmento) :
    (procesar_segmento true e seg).1 = true := by
  unfold procesar_segmento
  split_ifs <;> rfl

/-- A whole run never clears `estado_activo`. -/
theorem lista_conserva_activo (segs : List Segmento) : ∀ e : Bool,
    (procesar_lista true e segs).1 = true := by
  induction segs with
  | nil => intro e; rfl
  | cons seg resto ih =>
    intro e
    simp only [procesar_lista]
    rw [paso_conserva_activo e seg]
    exact ih _

/-- Processing a concatenation runs the first part, then the second part
from the flags the first part left, and appends the outputs. -/
theorem procesar_lista_append (l₁ l₂ : List Segmento) : ∀ s e : Bool,
    procesar_lista s e (l₁ ++ l₂) =
      ((procesar_lista (procesar_lista s e l₁).1 (procesar_lista s e l₁).2.1 l₂).1,
       (procesar_lista (procesar_lista s e l₁).1 (procesar_lista s e l₁).2.1 l₂).2.1,
       (procesar_lista s e l₁).2.2 ++
         (procesar_lista (procesar_lista s e l₁).1 (procesar_lista s e l₁).2.1 l₂).2.2) := by
  induction l₁ with
  | nil => intro s e; simp [procesar_lista]
  | cons seg resto ih =>
    intro s e
    simp only [List.cons_append, procesar_lista, List.append_eq]
    rw [ih]
    simp [List.append_assoc]

/-- The function `procesar_lista` realizes the run relation: from any
flags, the loop relates the input windows to exactly the output it
computes. -/
theorem ejecuta_procesar_lista (segs : List Segmento) : ∀ s e : Bool,
    Ejecuta s e segs (procesar_lista s e segs).2.2 := by
  induction segs with
  | nil => intro s e; exact Ejecuta.agotado s e
  | cons seg resto ih =>
    intro s e
    by_cases ht : seg.transcripcion = ""
    · have hp := paso_vacio s e seg ht
      simp only [procesar_lista, hp, Option.toList, List.nil_append]
      exact Ejecuta.vacio ht (ih s e)
    · cases hc : detectar_comando seg.transcripcion with
      | some cmd =>
        cases cmd with
        | inicio =>
          have hp := paso_inicio s e seg hc
          simp only [procesar_lista, hp, Option.toList, List.nil_append]
          exact Ejecuta.inicio ht hc (ih true e)
        | activar =>
          cases s with
          | false =>
            have hp := paso_espera e seg ht (by simp [hc])
            simp only [procesar_lista, hp, Option.toList, List.nil_append]
            exact Ejecuta.espera ht (by simp [hc]) (ih false e)
          | true =>
            have hp := paso_activar e seg hc
            simp only [procesar_lista, hp, Option.toList, List.nil_append]
            exact Ejecuta.activar ht hc (ih true true)
        | desactivar =>
          cases s with
          | false =>
            have hp := paso_espera e seg ht (by simp [hc])
            simp only [procesar_lista, hp, Option.toList, List.nil_append]
            exact Ejecuta.espera ht (by simp [hc]) (ih false e)
          | true =>
            have hp := paso_desactivar e seg hc
            simp only [procesar_lista, hp, Option.toList, List.singleton_append]
            exact Ejecuta.desactivar ht hc (ih true false)
      | none =>
        cases s with
        | false =>
          have hp := paso_espera e seg ht (by simp [hc])
          simp only [procesar_lista, hp, Option.toList, List.nil_append]
          exact Ejecuta.espera ht (by simp [hc]) (ih false e)
        | true =>
          cases e with
          | true =>
            have hp := paso_contenido seg ht hc
            simp only [procesar_lista, hp, Option.toList, List.singleton_append]
            exact Ejecuta.contenido ht hc (ih true true)
          | false =>
            have hp := paso_fuera seg ht hc
            simp only [procesar_lista, hp, Option.toList, List.nil_append]
            exact Ejecuta.fueraDeActa ht hc (ih true false)

/-- The run relation is functional: from the same flags over the same
window sequence, at most one output list is related. -/
theorem ejecuta_det {s e : Bool} {segs : List Segmento} {out₁ out₂ : List ActaSeg}
    (h₁ : Ejecuta s e segs out₁) (h₂ : Ejecuta s e segs out₂) : out₁ = out₂ := by
  induction h₁ generalizing out₂ with
  | agotado s e => cases h₂; rfl
  | vacio ht hrec ih =>
    cases h₂ <;> simp_all
    exact ih (by assumption)
  | inicio ht hc hrec ih =>
    cases h₂ <;> simp_all
    exact ih (by assumption)
  | espera ht hc hrec ih =>
    cases h₂ <;> simp_all
    exact ih (by assumption)
  | activar ht hc hrec ih =>
    cases h₂ <;> simp_all
    exact ih (by assumption)
  | desactivar ht hc hrec ih =>
    cases h₂ <;> simp_all
    exact ih (by assumption)
  | contenido ht hc hrec ih =>
    cases h₂ <;> simp_all
    exact ih (by assumption)
  | fueraDeActa ht hc hrec ih =>
    cases h₂ <;> simp_all
    exact ih (by assumption)

/-! Segmenter helper lemmas. -/

/-- The segmenter produces `⌈D / L⌉` windows. -/
theorem segmentar_length (L D : ℚ) :
    (segmentar_audio_fino L D).length = Int.toNat ⌈D / L⌉ := by
  unfold segmentar_audio_fino
  rw [List.length_map, List.length_range]

/-- Window `k` of the segmenter output, in closed form. -/
theorem segmentar_get (L D : ℚ) (k : ℕ) (h : k < (segmentar_audio_fino L D).length) :
    (segmentar_audio_fino L D).get ⟨k, h⟩ =
      ⟨(k : ℚ) * L, min ((k : ℚ) * L + L) D, min ((k : ℚ) * L + L) D - (k : ℚ) * L⟩ := by
  unfold segmentar_audio_fino
  rw [List.get_eq_getElem, List.getElem_map, List.getElem_range]

/-- Index `k` is a window index exactly when its start lies before `D`. -/
theorem indice_lt {L D : ℚ} (hL : 0 < L) {k : ℕ} :
    k < Int.toNat ⌈D / L⌉ ↔ (k : ℚ) * L < D := by
  rw [Int.lt_toNat, Int.lt_ceil, lt_div_iff₀ hL]
  norm_cast

/-- The total duration is covered by the produced windows. -/
theorem cota_D {L D : ℚ} (hL : 0 < L) :
    D ≤ (Int.toNat ⌈D / L⌉ : ℚ) * L := by
  have h1 : D / L ≤ ((Int.toNat ⌈D / L⌉ : ℤ) : ℚ) :=
    le_trans (Int.le_ceil _) (by exact_mod_cast Int.self_le_toNat _)
  have h2 := (div_le_iff₀ hL).1 h1
  exact_mod_cast h2

/-- Telescoping sum of consecutive differences over an initial segment. -/
theorem suma_telescopica (f : ℕ → ℚ) (n : ℕ) :
    ((List.range n).map (fun k => f (k + 1) - f k)).sum = f n - f 0 := by
  induction n with
  | zero => simp
  | succ n ih =>
    rw [List.range_succ, List.map_append, List.sum_append, ih]
    simp

/-! Claim theorems. -/

/-- C1: the four-transcript scenario (session start, minutes on, one
content window, minutes off) emits exactly two entries: the content entry
of the third window, whose keyword set is `{riesgo, obra}`, followed by
the command-marker entry of the fourth window; the session-start and
activate-minutes windows produce no entries. -/
theorem escenario_cuatro_ventanas :
    procesar_audio_con_comandos
      [⟨0, 3, "se inicia la sesión"⟩, ⟨3, 6, "en acta"⟩,
       ⟨6, 9, "hablamos de riesgo en la obra"⟩, ⟨9, 12, "fuera de acta"⟩] =
      [⟨6, 9, "Hablamos de riesgo en la obra", ["obra", "riesgo"], Tipo.contenido⟩,
       ⟨9, 12, "fuera de acta", ["acta"], Tipo.comando⟩] ∧
    (∀ kw : String, kw ∈ buscar_keywords "hablamos de riesgo en la obra" ↔
      kw = "riesgo" ∨ kw = "obra") ∧
    detectar_comando "se inicia la sesión" = some Comando.inicio ∧
    detectar_comando "en acta" = some Comando.activar ∧
    detectar_comando "fuera de acta" = some Comando.desactivar := by
  refine ⟨by decide, fun kw => ?_, by decide, by decide, by decide⟩
  have h : buscar_keywords "hablamos de riesgo en la obra" = ["obra", "riesgo"] := by
    decide
  rw [h]
  simp [List.mem_cons, or_comm]

/-- C2: every entry the state machine emits comes from an input window,
and that window's transcript classifies neither as `SessionStart` nor as
`ActivateMinutes`, whatever flags were in force when it was processed. -/
theorem nunca_emite_inicio_ni_activar (segs : List Segmento) (a : ActaSeg)
    (h : a ∈ procesar_audio_con_comandos segs) :
    ∃ seg ∈ segs, (∃ s e : Bool, (procesar_segmento s e seg).2.2 = some a) ∧
      detectar_comando seg.transcripcion ≠ some Comando.inicio ∧
      detectar_comando seg.transcripcion ≠ some Comando.activar := by
  obtain ⟨seg, hmem, s, e, hstep⟩ := emision_origen segs false false a h
  have hp := paso_emite s e seg a hstep
  exact ⟨seg, hmem, ⟨s, e, hstep⟩, hp.2.2.2.1, hp.2.2.2.2.1⟩

/-- Witness for C2: the content entry of the four-window scenario. -/
theorem nunca_emite_inicio_ni_activar_testigo :
    ∃ seg ∈ [(⟨0, 3, "se inicia la sesión"⟩ : Segmento), ⟨3, 6, "en acta"⟩,
      ⟨6, 9, "hablamos de riesgo en la obra"⟩, ⟨9, 12, "fuera de acta"⟩],
      (∃ s e : Bool, (procesar_segmento s e seg).2.2 =
        some ⟨6, 9, "Hablamos de riesgo en la obra", ["obra", "riesgo"], Tipo.contenido⟩) ∧
      detectar_comando seg.transcripcion ≠ some Comando.inicio ∧
      detectar_comando seg.transcripcion ≠ some Comando.activar :=
  nunca_emite_inicio_ni_activar _ _ (by decide)

/-- C3: with the session active, a `DeactivateMinutes` window clears
`en_acta` and is emitted as exactly one command-marker entry tagged with
all keywords of its transcript, also when the minutes were already off. -/
theorem desactivar_emite_marcador (e : Bool) (seg : Segmento)
    (h : detectar_comando seg.transcripcion = some Comando.desactivar) :
    procesar_segmento true e seg =
      (true, false, some ⟨seg.inicio, seg.fin, seg.transcripcion,
        buscar_keywords seg.transcripcion, Tipo.comando⟩) ∧
    ∀ kw : String, kw ∈ buscar_keywords seg.transcripcion ↔
      kw ∈ PALABRAS_CLAVE ∧ contiene kw (lower seg.transcripcion) = true := by
  refine ⟨paso_desactivar e seg h, fun kw => ?_⟩
  simp [buscar_keywords, List.mem_filter]

/-- Witness for C3: the `fuera de acta` window with the minutes already
off. -/
theorem desactivar_emite_marcador_testigo :
    procesar_segmento true false ⟨9, 12, "fuera de acta"⟩ =
      (true, false, some ⟨9, 12, "fuera de acta",
        buscar_keywords "fuera de acta", Tipo.comando⟩) ∧
    ∀ kw : String, kw ∈ buscar_keywords "fuera de acta" ↔
      kw ∈ PALABRAS_CLAVE ∧ contiene kw (lower "fuera de acta") = true :=
  desactivar_emite_marcador false ⟨9, 12, "fuera de acta"⟩ (by decide)

/-- C5: every content entry was emitted by the loop body while both
`estado_activo` and `en_acta` were true. -/
theorem contenido_requiere_flags (segs : List Segmento) (a : ActaSeg)
    (h : a ∈ procesar_audio_con_comandos segs) (ht : a.tipo = Tipo.contenido) :
    ∃ seg ∈ segs, (procesar_segmento true true seg).2.2 = some a := by
  obtain ⟨seg, hmem, s, e, hstep⟩ := emision_origen segs false false a h
  obtain ⟨hs, he⟩ := (paso_emite s e seg a hstep).2.2.2.2.2 ht
  subst hs
  subst he
  exact ⟨seg, hmem, hstep⟩

/-- Witness for C5: the content entry of the four-window scenario. -/
theorem contenido_requiere_flags_testigo :
    ∃ seg ∈ [(⟨0, 3, "se inicia la sesión"⟩ : Segmento), ⟨3, 6, "en acta"⟩,
      ⟨6, 9, "hablamos de riesgo en la obra"⟩, ⟨9, 12, "fuera de acta"⟩],
      (procesar_segmento true true seg).2.2 =
        some ⟨6, 9, "Hablamos de riesgo en la obra", ["obra", "riesgo"], Tipo.contenido⟩ :=
  contenido_requiere_flags _ _ (by decide) (by decide)

/-- C6: the output entry sequence is a strict order-preserving
subsequence of the input windows — the emitted start times form a sublist
of the window start times, and when the windows are strictly increasing
the emitted starts are strictly increasing too. -/
theorem salida_subsecuencia_ordenada (segs : List Segmento)
    (h : (segs.map Segmento.inicio).Pairwise (· < ·)) :
    ((procesar_audio_con_comandos segs).map ActaSeg.inicio).Sublist
      (segs.map Segmento.inicio) ∧
    ((procesar_audio_con_comandos segs).map ActaSeg.inicio).Pairwise (· < ·) :=
  ⟨salida_sublista segs false false,
   List.Pairwise.sublist (salida_sublista segs false false) h⟩

/-- Witness for C6 at the four-window scenario. -/
theorem salida_subsecuencia_ordenada_testigo :
    ((procesar_audio_con_comandos
        [⟨0, 3, "se inicia la sesión"⟩, ⟨3, 6, "en acta"⟩,
         ⟨6, 9, "hablamos de riesgo en la obra"⟩, ⟨9, 12, "fuera de acta"⟩]).map
      ActaSeg.inicio).Sublist
      ([(⟨0, 3, "se inicia la sesión"⟩ : Segmento), ⟨3, 6, "en acta"⟩,
        ⟨6, 9, "hablamos de riesgo en la obra"⟩, ⟨9, 12, "fuera de acta"⟩].map
        Segmento.inicio) ∧
    ((procesar_audio_con_comandos
        [⟨0, 3, "se inicia la sesión"⟩, ⟨3, 6, "en acta"⟩,
         ⟨6, 9, "hablamos de riesgo en la obra"⟩, ⟨9, 12, "fuera de acta"⟩]).map
      ActaSeg.inicio).Pairwise (· < ·) :=
  salida_subsecuencia_ordenada _ (by decide)

/-- C8: a window with an empty transcript is skipped entirely: the flags
do not change, no entry is emitted, and the run continues on the rest. -/
theorem transcripcion_vacia_salta (s e : Bool) (seg : Segmento)
    (resto : List Segmento) (h : seg.transcripcion = "") :
    procesar_segmento s e seg = (s, e, none) ∧
    procesar_lista s e (seg :: resto) = procesar_lista s e resto := by
  refine ⟨paso_vacio s e seg h, ?_⟩
  simp only [procesar_lista, paso_vacio s e seg h, Option.toList, List.nil_append]

/-- Witness for C8: an empty transcript in front of one ordinary window. -/
theorem transcripcion_vacia_salta_testigo :
    procesar_segmento false false ⟨0, 3, ""⟩ = (false, false, none) ∧
    procesar_lista false false (⟨0, 3, ""⟩ :: [⟨3, 6, "en acta"⟩]) =
      procesar_lista false false [⟨3, 6, "en acta"⟩] :=
  transcripcion_vacia_salta false false ⟨0, 3, ""⟩ [⟨3, 6, "en acta"⟩] rfl

/-- C9: the state-machine stage is deterministic: the run relation from
the initial flags relates an input sequence to exactly one output, the
one `procesar_audio_con_comandos` computes, so two runs over the same
sequence agree. -/
theorem maquina_determinista (segs : List Segmento) (out : List ActaSeg) :
    Ejecuta false false segs out ↔ out = procesar_audio_con_comandos segs := by
  simp only [procesar_audio_con_comandos]
  constructor
  · intro h
    exact ejecuta_det h (ejecuta_procesar_lista segs false false)
  · intro h
    rw [h]
    exact ejecuta_procesar_lista segs false false

/-- C10: `estado_activo` is monotone — one iteration never clears it, a
whole run never clears it, a `SessionStart` window sets it from any state,
and once a prefix of the input has set it the full run keeps it. -/
theorem sesion_permanece_activa (s e : Bool) (seg : Segmento)
    (segs l₁ l₂ : List Segmento) :
    (s = true → (procesar_segmento s e seg).1 = true) ∧
    (procesar_lista true e segs).1 = true ∧
    (detectar_comando seg.transcripcion = some Comando.inicio →
      (procesar_segmento s e seg).1 = true) ∧
    ((procesar_lista s e l₁).1 = true →
      (procesar_lista s e (l₁ ++ l₂)).1 = true) := by
  refine ⟨?_, lista_conserva_activo segs e, ?_, ?_⟩
  · intro hs
    subst hs
    exact paso_conserva_activo e seg
  · intro hc
    rw [paso_inicio s e seg hc]
  · intro h1
    rw [procesar_lista_append l₁ l₂ s e]
    rw [h1]
    exact lista_conserva_activo l₂ _

/-- Witness for C10: a deactivate window keeps the session active, a
session-start window opens it, and a run over a session-started prefix
stays active. -/
theorem sesion_permanece_activa_testigo :
    (procesar_segmento true false ⟨9, 12, "fuera de acta"⟩).1 = true ∧
    (procesar_segmento false false ⟨0, 3, "se inicia la sesión"⟩).1 = true ∧
    (procesar_lista false false
      ([⟨0, 3, "se inicia la sesión"⟩] ++ [⟨9, 12, "fuera de acta"⟩])).1 = true :=
  ⟨(sesion_permanece_activa true false ⟨9, 12, "fuera de acta"⟩ [] [] []).1 rfl,
   (sesion_permanece_activa false false ⟨0, 3, "se inicia la sesión"⟩ [] [] []).2.2.1
     (by decide),
   (sesion_permanece_activa false false ⟨0, 3, "se inicia la sesión"⟩ []
     [⟨0, 3, "se inicia la sesión"⟩] [⟨9, 12, "fuera de acta"⟩]).2.2.2 (by decide)⟩

/-- C4: classification tries the phrase sets in the fixed priority order
`SessionStart`, `ActivateMinutes`, `DeactivateMinutes` over the
lower-cased text, returns the first kind whose set has a matching
substring, and `none` when no phrase occurs; so any text containing a
session-start phrase classifies as `SessionStart` regardless of what else
occurs in it. -/
theorem prioridad_clasificacion (texto : String) :
    (detectar_comando texto = some Comando.inicio ↔
      ∃ cmd ∈ COMANDOS_INICIO, contiene cmd (lower texto) = true) ∧
    (detectar_comando texto = some Comando.activar ↔
      (∀ cmd ∈ COMANDOS_INICIO, contiene cmd (lower texto) = false) ∧
      ∃ cmd ∈ COMANDO_ACTIVAR, contiene cmd (lower texto) = true) ∧
    (detectar_comando texto = some Comando.desactivar ↔
      (∀ cmd ∈ COMANDOS_INICIO, contiene cmd (lower texto) = false) ∧
      (∀ cmd ∈ COMANDO_ACTIVAR, contiene cmd (lower texto) = false) ∧
      ∃ cmd ∈ COMANDO_DESACTIVAR, contiene cmd (lower texto) = true) ∧
    (detectar_comando texto = none ↔
      (∀ cmd ∈ COMANDOS_INICIO, contiene cmd (lower texto) = false) ∧
      (∀ cmd ∈ COMANDO_ACTIVAR, contiene cmd (lower texto) = false) ∧
      (∀ cmd ∈ COMANDO_DESACTIVAR, contiene cmd (lower texto) = false)) := by
  unfold detectar_comando
  split_ifs with h1 h2 h3 <;>
    simp_all [List.any_eq_true, Bool.not_eq_true]

/-- C7: for any duration `D` and window length `L > 0` the segmenter
tiles `[0, D)` exactly: `D ≤ 0` gives the empty sequence, starts are
strictly increasing, each window ends where the next begins, every window
has positive length at most `L`, the first window starts at `0` and the
last ends at `D`, all windows except possibly the last have length `L`,
the lengths sum to `D`, and when `D` is an exact multiple of `L` every
window has length exactly `L` (no truncated window). -/
theorem segmentador_teselado (L D : ℚ) (hL : 0 < L) :
    (D ≤ 0 → segmentar_audio_fino L D = []) ∧
    ((segmentar_audio_fino L D).map Ventana.inicio).Pairwise (· < ·) ∧
    (segmentar_audio_fino L D).Chain' (fun v w => v.fin = w.inicio) ∧
    (∀ v ∈ segmentar_audio_fino L D,
      v.inicio < v.fin ∧ v.duracion = v.fin - v.inicio ∧
      0 < v.duracion ∧ v.duracion ≤ L) ∧
    (∀ h0 : 0 < (segmentar_audio_fino L D).length,
      ((segmentar_audio_fino L D).get ⟨0, h0⟩).inicio = 0 ∧
      ((segmentar_audio_fino L D).get
        ⟨(segmentar_audio_fino L D).length - 1, Nat.sub_lt h0 Nat.one_pos⟩).fin = D) ∧
    (∀ (k : ℕ) (hk : k < (segmentar_audio_fino L D).length),
      k + 1 < (segmentar_audio_fino L D).length →
      ((segmentar_audio_fino L D).get ⟨k, hk⟩).duracion = L) ∧
    (0 ≤ D → ((segmentar_audio_fino L D).map Ventana.duracion).sum = D) ∧
    ((∃ m : ℕ, D = (m : ℚ) * L) →
      ∀ v ∈ segmentar_audio_fino L D, v.duracion = L) := by
  have hlen := segmentar_length L D
  refine ⟨?_, ?_, ?_, ?_, ?_, ?_, ?_, ?_⟩
  · intro hD
    have hq : D / L ≤ 0 := div_nonpos_iff.2 (Or.inr ⟨hD, hL.le⟩)
    have hceil : ⌈D / L⌉ ≤ 0 := Int.ceil_le.2 (by exact_mod_cast hq)
    have h0 : Int.toNat ⌈D / L⌉ = 0 := Int.toNat_of_nonpos hceil
    unfold segmentar_audio_fino
    rw [h0]
    rfl
  · unfold segmentar_audio_fino
    rw [List.map_map]
    refine List.Pairwise.map _ (fun a b hab => ?_) (List.pairwise_lt_range _)
    simp only [Function.comp_apply]
    exact mul_lt_mul_of_pos_right (by exact_mod_cast hab) hL
  · rw [List.chain'_iff_get]
    intro i hi
    have hi1 : i < (segmentar_audio_fino L D).length :=
      lt_of_lt_of_le hi (Nat.sub_le _ _)
    have hi2 : i + 1 < (segmentar_audio_fino L D).length := by omega
    rw [segmentar_get L D i hi1, segmentar_get L D (i + 1) hi2]
    show min ((i : ℚ) * L + L) D = ((i + 1 : ℕ) : ℚ) * L
    have hlt : ((i + 1 : ℕ) : ℚ) * L < D := by
      refine (indice_lt hL).1 ?_
      rw [hlen] at hi2
      exact hi2
    push_cast at hlt ⊢
    rw [min_eq_left (by linarith)]
    ring
  · intro v hv
    unfold segmentar_audio_fino at hv
    obtain ⟨k, hk, rfl⟩ := List.mem_map.1 hv
    have hkD : (k : ℚ) * L < D := (indice_lt hL).1 (List.mem_range.1 hk)
    have hini : (k : ℚ) * L < min ((k : ℚ) * L + L) D := lt_min (by linarith) hkD
    refine ⟨?_, rfl, ?_, ?_⟩
    · exact hini
    · show 0 < min ((k : ℚ) * L + L) D - (k : ℚ) * L
      linarith
    · have hm := min_le_left ((k : ℚ) * L + L) D
      show min ((k : ℚ) * L + L) D - (k : ℚ) * L ≤ L
      linarith
  · intro h0
    constructor
    · rw [segmentar_get L D 0 h0]
      show ((0 : ℕ) : ℚ) * L = 0
      simp
    · rw [segmentar_get L D ((segmentar_audio_fino L D).length - 1)
        (Nat.sub_lt h0 Nat.one_pos)]
      show min ((((segmentar_audio_fino L D).length - 1 : ℕ) : ℚ) * L + L) D = D
      have h1 : 1 ≤ (segmentar_audio_fino L D).length := h0
      rw [hlen] at h1 ⊢
      have hcast : ((Int.toNat ⌈D / L⌉ - 1 : ℕ) : ℚ) = (Int.toNat ⌈D / L⌉ : ℚ) - 1 := by
        rw [Nat.cast_sub h1]
        simp
      rw [hcast]
      have hexp : ((Int.toNat ⌈D / L⌉ : ℚ) - 1) * L + L = (Int.toNat ⌈D / L⌉ : ℚ) * L := by
        ring
      rw [hexp]
      exact min_eq_right (cota_D hL)
  · intro k hk hk1
    rw [segmentar_get L D k hk]
    show min ((k : ℚ) * L + L) D - (k : ℚ) * L = L
    have hlt : ((k + 1 : ℕ) : ℚ) * L < D := by
      refine (indice_lt hL).1 ?_
      rw [hlen] at hk1
      exact hk1
    push_cast at hlt
    rw [min_eq_left (by linarith)]
    ring
  · intro hD
    unfold segmentar_audio_fino
    rw [List.map_map]
    have hcg : ∀ k ∈ List.range (Int.toNat ⌈D / L⌉),
        (Ventana.duracion ∘ fun (k : ℕ) =>
          (⟨(k : ℚ) * L, min ((k : ℚ) * L + L) D,
            min ((k : ℚ) * L + L) D - (k : ℚ) * L⟩ : Ventana)) k =
        (fun (k : ℕ) =>
          min (((k + 1 : ℕ) : ℚ) * L) D - min ((k : ℚ) * L) D) k := by
      intro k hk
      have hkD : (k : ℚ) * L < D := (indice_lt hL).1 (List.mem_range.1 hk)
      simp only [Function.comp_apply]
      rw [min_eq_left hkD.le]
      have hcast : ((k + 1 : ℕ) : ℚ) * L = (k : ℚ) * L + L := by
        push_cast
        ring
      rw [hcast]
    rw [List.map_congr_left hcg]
    rw [suma_telescopica (fun m => min ((m : ℚ) * L) D) (Int.toNat ⌈D / L⌉)]
    rw [min_eq_right (cota_D hL)]
    norm_num [min_eq_left hD]
  · rintro ⟨m, rfl⟩ v hv
    have hn : Int.toNat ⌈((m : ℚ) * L) / L⌉ = m := by
      rw [mul_div_cancel_right₀ _ (ne_of_gt hL), Int.ceil_natCast]
      exact Int.toNat_natCast m
    unfold segmentar_audio_fino at hv
    rw [hn] at hv
    obtain ⟨k, hk, rfl⟩ := List.mem_map.1 hv
    have hk1 : k < m := List.mem_range.1 hk
    show min ((k : ℚ) * L + L) ((m : ℚ) * L) - (k : ℚ) * L = L
    have hklem : ((k : ℚ) + 1) ≤ (m : ℚ) := by exact_mod_cast hk1
    have h2 := mul_le_mul_of_nonneg_right hklem hL.le
    have hle : (k : ℚ) * L + L ≤ (m : ℚ) * L := by
      calc (k : ℚ) * L + L = ((k : ℚ) + 1) * L := by ring
        _ ≤ (m : ℚ) * L := h2
    rw [min_eq_left hle]
    ring

/-- Witness for C7 at window length 3 and total duration 7. -/
theorem segmentador_teselado_testigo :
    (0 : ℚ) < 3 ∧
    (((7 : ℚ) ≤ 0 → segmentar_audio_fino 3 7 = []) ∧
     ((segmentar_audio_fino 3 7).map Ventana.inicio).Pairwise (· < ·) ∧
     (segmentar_audio_fino 3 7).Chain' (fun v w => v.fin = w.inicio) ∧
     (∀ v ∈ segmentar_audio_fino 3 7,
       v.inicio < v.fin ∧ v.duracion = v.fin - v.inicio ∧
       0 < v.duracion ∧ v.duracion ≤ 3) ∧
     (∀ h0 : 0 < (segmentar_audio_fino 3 7).length,
       ((segmentar_audio_fino 3 7).get ⟨0, h0⟩).inicio = 0 ∧
       ((segmentar_audio_fino 3 7).get
         ⟨(segmentar_audio_fino 3 7).length - 1, Nat.sub_lt h0 Nat.one_pos⟩).fin = 7) ∧
     (∀ (k : ℕ) (hk : k < (segmentar_audio_fino 3 7).length),
       k + 1 < (segmentar_audio_fino 3 7).length →
       ((segmentar_audio_fino 3 7).get ⟨k, hk⟩).duracion = 3) ∧
     ((0 : ℚ) ≤ 7 → ((segmentar_audio_fino 3 7).map Ventana.duracion).sum = 7) ∧
     ((∃ m : ℕ, (7 : ℚ) = (m : ℚ) * 3) →
       ∀ v ∈ segmentar_audio_fino 3 7, v.duracion = 3)) :=
  ⟨by decide, segmentador_teselado 3 7 (by decide)⟩

end Actas
